import Mathlib

/-
Verification of the braille transcription dispatcher of music21
(src/music21/braille/translate.py) against its specification.

The file shallowly embeds the functions of translate.py.  The segmenter
and symbol encoder live in music21/braille/segment.py and basic.py, which
are not part of the sources under study; where a definition depends on
them it is modelled from the specification and its doc comment says so.
Machine strings are Lean String values; Python dictionaries of keyword
arguments become a structure of Option fields (none means the key was
absent from the call).
-/

namespace BrailleTranslate

/-! ## String helpers (embeddings of Python primitives) -/

/-- Lexicographic code-point comparison of character lists: the order
Python uses to compare strings in sorted().  Returns true when the first
list is less than or equal to the second. -/
def charListLe : List Char → List Char → Bool
  | [], _ => true
  | _ :: _, [] => false
  | a :: as, b :: bs =>
    if a < b then true
    else if b < a then false
    else charListLe as bs

/-- Lexicographic code-point comparison of strings, as Python compares
strings. -/
def strLe (a b : String) : Bool :=
  charListLe a.data b.data

/-- Stable insertion of a string into an already sorted list: the new
element is placed after any element it compares equal to, matching the
stability of Python sorted(). -/
def insertLine (x : String) : List String → List String
  | [] => [x]
  | y :: ys => if strLe y x then y :: insertLine x ys else x :: y :: ys

/-- Embedding of Python sorted() on lists of strings: a stable insertion
sort under lexicographic code-point order. -/
def sortLines (ls : List String) : List String :=
  ls.foldl (fun acc x => insertLine x acc) []

/-- Embedding of Python str.join: empty string on the empty list,
otherwise the first piece followed by separator-piece pairs. -/
def pyJoin (sep : String) : List String → String
  | [] => ""
  | x :: rest => rest.foldl (fun acc y => acc ++ sep ++ y) x

/-- Does the pattern occur at the start of the string? (kernel-reducible
replacement for String.startsWith). -/
def strStarts (s pat : String) : Bool :=
  pat.data.isPrefixOf s.data

/-- Does the pattern occur at the end of the string? (kernel-reducible
replacement for String.endsWith). -/
def strEnds (s pat : String) : Bool :=
  pat.data.isSuffixOf s.data

/-- Split a string at newline characters (kernel-reducible replacement
for splitting on a newline). -/
def splitLines (s : String) : List String :=
  (s.data.splitOn '\n').map String.mk

/-- The pattern occurs somewhere inside the string: an explicit
decomposition exists. -/
def containsPiece (s pat : String) : Prop :=
  ∃ a b : String, s = a ++ pat ++ b

/-! ## Keyword arguments

Python keyword dictionaries become a structure of Option fields; a field
is none exactly when the corresponding key is absent from the keywords
dictionary of the call.  The recognized keys and their documented
defaults are those listed in the module docstring of translate.py. -/

structure Keywords where
  inPlace : Option Bool := none
  debug : Option Bool := none
  cancelOutgoingKeySig : Option Bool := none
  descendingChords : Option Bool := none
  dummyRestLength : Option (Option Nat) := none
  maxLineLength : Option Nat := none
  segmentBreaks : Option (List (Nat × Nat)) := none
  showClefSigns : Option Bool := none
  showFirstMeasureNumber : Option Bool := none
  showHand : Option (Option String) := none
  showHeading : Option Bool := none
  showLongSlursAndTiesTogether : Option Bool := none
  showShortSlursAndTiesTogether : Option Bool := none
  slurLongPhraseWithBrackets : Option Bool := none
  suppressOctaveMarks : Option Bool := none
  upperFirstInNoteFingering : Option Bool := none
deriving DecidableEq

/-- Documented default of the showHeading keyword (module docstring of
translate.py: showHeading (True)). -/
def defaultShowHeading : Bool := true

/-- Documented default of the showFirstMeasureNumber keyword (module
docstring of translate.py: showFirstMeasureNumber (True)). -/
def defaultShowFirstMeasureNumber : Bool := true

/-- Embedding of translate._translateArgs: reads inPlace and debug from
the keywords with defaults False, False. -/
def translateArgs (kw : Keywords) : Bool × Bool :=
  (kw.inPlace.getD false, kw.debug.getD false)

/-! ## Data model -/

/-- Modelled from the spec: a Segment as produced by segment.findSegments
(braille/segment.py, not among the sources under study).  It covers a
contiguous measure range and transcribes to a braille text of one or more
lines; str() of the segment gives the debug representation used when the
debug keyword is set. -/
structure Segment where
  startMeasure : Nat
  endMeasure : Nat
  transcription : String
  debugRepr : String
deriving DecidableEq

/-- A Part, carrying the output of segment.findSegments as a function of
the keyword arguments.  Modelled from the spec: findSegments itself is
in braille/segment.py, not among the sources under study, so its result
on this part is data of the model. -/
structure Part where
  segments : Keywords → List Segment

/-- A Measure.  measureToBraille wraps a measure into a fresh Part before
transcribing; the field carries the output of segment.findSegments on
that single-measure Part (modelled from the spec, as for Part). -/
structure Measure where
  segments : Keywords → List Segment

/-- A Metadata object: its workIds dictionary in iteration order, each
value possibly None. -/
structure Metadata where
  workIds : List (String × Option String)

/-- A Score: contained Metadata objects and contained Parts, each in the
order getElementsByClass returns them. -/
structure Score where
  scoreMetadata : List Metadata
  parts : List Part

/-- An Opus: contained Scores in order. -/
structure Opus where
  scores : List Score

/-- The kind of a Stream, as streamToBraille distinguishes kinds by
isinstance checks: Part, TinyNotationStream, Measure, Score, Opus, or a
generic Stream of any other class. -/
inductive StreamKind where
  | part (p : Part)
  | tinyNotationStream (p : Part)
  | measure (m : Measure)
  | score (s : Score)
  | opus (o : Opus)
  | generic

/-- A Stream: its kind together with the result of
getElementsByClass(stream.PartStaff) on it. -/
structure Stream where
  kind : StreamKind
  partStaffs : List Part

/-- An arbitrary music21 object handed to objectToBraille: either a
Stream, or a Dynamic with its textual name, or some other non-stream
object.  Only the Dynamic case is needed by the properties studied
here; other non-stream objects are out of scope. -/
inductive Music21Object where
  | streamObj (st : Stream)
  | dynamic (dynName : String)

/-- The typed failures of the translation surface:
brailleTranslateExc embeds BrailleTranslateException raised by
streamToBraille, and alignment embeds the failure of pairing misaligned
grand-staff segments (modelled from the spec, which calls it
AlignmentError). -/
inductive BrailleError where
  | brailleTranslateExc
  | alignment
deriving DecidableEq

/-! ## Glyphs (modelled from the spec and the doctests of translate.py) -/

/-- Modelled from the spec: the braille letter glyph the symbol encoder
of braille/basic.py (not among the sources under study) emits for one
character of a dynamic name; one braille cell per character. -/
def brailleLetter : Char → Char
  | 'a' => '⠁' | 'b' => '⠃' | 'c' => '⠉' | 'd' => '⠙' | 'e' => '⠑'
  | 'f' => '⠋' | 'g' => '⠛' | 'h' => '⠓' | 'i' => '⠊' | 'j' => '⠚'
  | 'k' => '⠅' | 'l' => '⠇' | 'm' => '⠍' | 'n' => '⠝' | 'o' => '⠕'
  | 'p' => '⠏' | 'q' => '⠟' | 'r' => '⠗' | 's' => '⠎' | 't' => '⠞'
  | 'u' => '⠥' | 'v' => '⠧' | 'w' => '⠺' | 'x' => '⠭' | 'y' => '⠽'
  | 'z' => '⠵' | _ => '⠿'

/-- Modelled from the spec: the dynamics introducer glyph, shown in the
doctest of objectToBraille as the first cell of the Dynamic output. -/
def dynamicIntroducer : Char := '⠜'

/-- Modelled from the spec (dynamics rule of the symbol encoder): a
dynamic is encoded as the dynamics introducer followed by one letter
glyph per character of its textual name.  Matches the doctest of
objectToBraille in translate.py, which shows the fff dynamic as four
cells starting with the introducer. -/
def dynamicToBraille (dynName : String) : String :=
  String.singleton dynamicIntroducer ++ String.mk (dynName.data.map brailleLetter)

/-- Modelled from the spec: debug representation of a segment holding a
lone dynamic. -/
def dynamicDebugText (dynName : String) : String :=
  "Dynamic " ++ dynName

/-- Modelled from the spec: the single segment of the fresh Measure that
objectToBraille builds around a lone Dynamic.  It transcribes to the
dynamic braille alone: the measure holds no key or time signature and no
barline, and measureToBraille switches showHeading and
showFirstMeasureNumber off for a lone measure, so nothing else is
emitted. -/
def dynamicSegment (dynName : String) : Segment :=
  { startMeasure := 0, endMeasure := 0,
    transcription := dynamicToBraille dynName,
    debugRepr := dynamicDebugText dynName }

/-- Modelled from the spec: the wrapper Measure around a lone Dynamic
segments into the single segment above under every keyword choice. -/
def measureOfDynamic (dynName : String) : Measure :=
  { segments := fun _ => [dynamicSegment dynName] }

/-! ## The translation functions of translate.py -/

/-- Embedding of translate.partToBraille: reads inPlace and debug via
translateArgs, obtains a renotated copy through makeNotation when
inPlace is false (makeNotation is an external collaborator, passed as
the function mkN), runs segment.findSegments on the part to transcribe,
and joins one entry per segment (its transcription, or its debug
representation when debug is set) with newlines. -/
def partToBraille (mkN : Part → Part) (p : Part) (kw : Keywords) : String :=
  let args := translateArgs kw
  let partToTranscribe := if args.1 then p else mkN p
  let allSegments := partToTranscribe.segments kw
  let allBrailleText := allSegments.map
    (fun seg => if args.2 then seg.debugRepr else seg.transcription)
  pyJoin "\n" allBrailleText

/-- Instrumented embedding of translate.partToBraille: returns, besides
the output, the part the caller holds after the call (the source never
rebinds or mutates its argument) and the number of makeNotation calls
made during the call. -/
def partToBrailleTraced (mkN : Part → Part) (p : Part) (kw : Keywords) :
    String × Part × Nat :=
  let args := translateArgs kw
  let renote := if args.1 then (p, 0) else (mkN p, 1)
  let allSegments := renote.1.segments kw
  let allBrailleText := allSegments.map
    (fun seg => if args.2 then seg.debugRepr else seg.transcription)
  (pyJoin "\n" allBrailleText, p, renote.2)

/-- Embedding of the keyword adjustment of translate.measureToBraille:
when showHeading is absent from the keywords it is set to False, and
when showFirstMeasureNumber is absent it is set to False; keys the
caller supplied are left unchanged. -/
def measureKeywords (kw : Keywords) : Keywords :=
  { kw with
    showHeading := some (kw.showHeading.getD false),
    showFirstMeasureNumber := some (kw.showFirstMeasureNumber.getD false) }

/-- Embedding of translate.measureToBraille: adjusts the keywords via
measureKeywords, obtains a renotated copy of the measure when inPlace is
false (mkNM embeds Measure.makeNotation), wraps the measure in a fresh
Part, forces inPlace to true and delegates to partToBraille.  Because
inPlace is forced to true, partToBraille never calls its renotation
argument, so the identity is passed for it. -/
def measureToBraille (mkNM : Measure → Measure) (m : Measure) (kw : Keywords) : String :=
  let args := translateArgs kw
  let kw1 := measureKeywords kw
  let measureToTranscribe := if args.1 then m else mkNM m
  let music21Part : Part := { segments := measureToTranscribe.segments }
  partToBraille (fun q => q) music21Part { kw1 with inPlace := some true }

/-- Is the character an ASCII uppercase letter? -/
def isUpperAZ (c : Char) : Bool := 65 ≤ c.toNat && c.toNat ≤ 90

/-- Is the character an ASCII lowercase letter? -/
def isLowerAZ (c : Char) : Bool := 97 ≤ c.toNat && c.toNat ≤ 122

/-- Embedding of the findall of metadataToString over the pattern of an
optional run of uppercase letters followed by a nonempty run of
lowercase letters: scanned left to right, resuming after each match and
advancing one character when no match starts at the current position.
The fuel argument bounds the scan by the length of the input. -/
def camelFindallAux : Nat → List Char → List String
  | 0, _ => []
  | _, [] => []
  | fuel + 1, c :: rest =>
    let ups := (c :: rest).takeWhile isUpperAZ
    let afterUps := (c :: rest).dropWhile isUpperAZ
    let lows := afterUps.takeWhile isLowerAZ
    let afterLows := afterUps.dropWhile isLowerAZ
    if lows.isEmpty then camelFindallAux fuel rest
    else String.mk (ups ++ lows) :: camelFindallAux fuel afterLows

/-- All matches of the workIds key pattern in a string. -/
def camelFindall (s : String) : List String :=
  camelFindallAux s.data.length s.data

/-- Embedding of Python str.title for ASCII strings: the first letter of
each run of letters is uppercased and the later letters of the run are
lowercased; other characters pass through and end the current word. -/
def pyTitleAux : Bool → List Char → List Char
  | _, [] => []
  | prevCased, c :: rest =>
    let cased := isUpperAZ c || isLowerAZ c
    let c2 := if cased && !prevCased then c.toUpper
      else if cased then c.toLower else c
    c2 :: pyTitleAux cased rest

/-- Embedding of Python str.title for ASCII strings. -/
def pyTitle (s : String) : String := String.mk (pyTitleAux false s.data)

/-- The summary line metadataToString builds for one workIds key and its
non-None value: the lowercase-run words extracted from the key, joined
by spaces, title-cased, followed by a colon, a space and the value. -/
def fmtWorkId (key value : String) : String :=
  pyTitle (pyJoin " " (camelFindall key)) ++ ": " ++ value

/-- The lines of metadataToString before sorting: one line per workIds
key whose value is not None, in dictionary iteration order. -/
def metadataLines (md : Metadata) : List String :=
  md.workIds.filterMap (fun kv => kv.2.map (fun value => fmtWorkId kv.1 value))

/-- Embedding of translate.metadataToString: the summary lines, sorted,
joined by newlines. -/
def metadataToString (md : Metadata) : String :=
  pyJoin "\n" (sortLines (metadataLines md))

/-- Embedding of translate.scoreToBraille: one entry per contained
Metadata object (its metadataToString), then one entry per contained
Part (its partToBraille output), joined by newlines. -/
def scoreToBraille (mkN : Part → Part) (s : Score) (kw : Keywords) : String :=
  let mdTexts := s.scoreMetadata.map metadataToString
  let partTexts := s.parts.map (fun p => partToBraille mkN p kw)
  pyJoin "\n" (mdTexts ++ partTexts)

/-- Embedding of translate.opusToBraille: the scoreToBraille outputs of
the contained Scores, in order, joined by a blank line (two consecutive
newline characters). -/
def opusToBraille (mkN : Part → Part) (o : Opus) (kw : Keywords) : String :=
  pyJoin "\n\n" (o.scores.map (fun s => scoreToBraille mkN s kw))

/-- Modelled from the spec: a BrailleGrandSegment pairs one upper staff
segment with one lower staff segment covering the same measure range. -/
structure BrailleGrandSegment where
  upper : Segment
  lower : Segment

/-- Modelled from the spec: the bar-over-bar transcription of a grand
segment puts the upper staff lines first, then the lower staff lines. -/
def BrailleGrandSegment.transcription (bg : BrailleGrandSegment) : String :=
  bg.upper.transcription ++ "\n" ++ bg.lower.transcription

/-- Modelled from the spec: debug representation of a grand segment. -/
def BrailleGrandSegment.debugRepr (bg : BrailleGrandSegment) : String :=
  bg.upper.debugRepr ++ "\n" ++ bg.lower.debugRepr

/-- Modelled from the spec: constructing a BrailleGrandSegment checks the
alignment precondition; a pair of segments covering different measure
ranges signals AlignmentError. -/
def BrailleGrandSegment.make (r l : Segment) : Except BrailleError BrailleGrandSegment :=
  if r.startMeasure = l.startMeasure ∧ r.endMeasure = l.endMeasure then
    .ok { upper := r, lower := l }
  else .error .alignment

/-- The pairing loop of keyboardPartsToBraille: one text per zipped pair
of segments (the debug representation when debug is set); a failure of
BrailleGrandSegment construction aborts the whole loop. -/
def grandLoop (debug : Bool) : List (Segment × Segment) → Except BrailleError (List String)
  | [] => .ok []
  | rl :: rest => do
    let bg ← BrailleGrandSegment.make rl.1 rl.2
    let txts ← grandLoop debug rest
    pure ((if debug then bg.debugRepr else bg.transcription) :: txts)

/-- Embedding of translate.keyboardPartsToBraille: renotates each staff
when inPlace is false, computes the segment sequences of both staves
with segment.findSegments, and pairs them positionally with zip, so the
loop runs over min-length many pairs and surplus segments of the longer
sequence are dropped.  The resulting texts are joined with newlines. -/
def keyboardPartsToBraille (mkN : Part → Part) (upperStaff lowerStaff : Part)
    (kw : Keywords) : Except BrailleError String := do
  let args := translateArgs kw
  let upperT := if args.1 then upperStaff else mkN upperStaff
  let lowerT := if args.1 then lowerStaff else mkN lowerStaff
  let rhSegments := upperT.segments kw
  let lhSegments := lowerT.segments kw
  let allBrailleText ← grandLoop args.2 (rhSegments.zip lhSegments)
  pure (pyJoin "\n" allBrailleText)

/-- Embedding of translate.streamToBraille, with the branch order of the
source: Part or TinyNotationStream first, then Measure, then a stream
whose getElementsByClass(PartStaff) has exactly two elements, then
Score, then Opus; any other stream raises BrailleTranslateException. -/
def streamToBraille (mkN : Part → Part) (mkNM : Measure → Measure) (st : Stream)
    (kw : Keywords) : Except BrailleError String :=
  match st.kind with
  | .part p => .ok (partToBraille mkN p kw)
  | .tinyNotationStream p => .ok (partToBraille mkN p kw)
  | .measure m => .ok (measureToBraille mkNM m kw)
  | k =>
    match st.partStaffs with
    | [u, l] => keyboardPartsToBraille mkN u l kw
    | _ =>
      match k with
      | .score s => .ok (scoreToBraille mkN s kw)
      | .opus o => .ok (opusToBraille mkN o kw)
      | _ => .error .brailleTranslateExc

/-- Embedding of translate.objectToBraille: a Stream is dispatched to
streamToBraille; any other object is wrapped into a fresh Measure, the
inPlace keyword is forced to true, and measureToBraille transcribes the
wrapper.  The wrapper Measure for a Dynamic is modelled from the spec:
see measureOfDynamic. -/
def objectToBraille (mkN : Part → Part) (mkNM : Measure → Measure)
    (obj : Music21Object) (kw : Keywords) : Except BrailleError String :=
  match obj with
  | .streamObj st => streamToBraille mkN mkNM st kw
  | .dynamic dynName =>
      .ok (measureToBraille mkNM (measureOfDynamic dynName)
        { kw with inPlace := some true })

/-- The pair of segment sequences keyboardPartsToBraille zips: each
staff is renotated when inPlace is false, then segmented with the full
keyword set. -/
def keyboardZip (mkN : Part → Part) (upperStaff lowerStaff : Part)
    (kw : Keywords) : List (Segment × Segment) :=
  (((if kw.inPlace.getD false then upperStaff else mkN upperStaff).segments kw).zip
    ((if kw.inPlace.getD false then lowerStaff else mkN lowerStaff).segments kw))

/-! ## Concrete values recorded in the doctests of translate.py -/

/-- The braille glyph sequence for a three-four time signature, as
recorded in the doctest of objectToBraille in translate.py. -/
def timeSigThreeFour : String := "⠼⠉⠲"

/-- The measure-number glyph sequence for measure 1 (numeral indicator
then the digit one), as recorded in the doctests of translate.py. -/
def measureNumberOne : String := "⠼⠁"

/-- The final barline glyph pair, the last two cells of the doctest
outputs of translate.py. -/
def finalBarlineGlyphs : String := "⠣⠅"

/-- First output line recorded in the doctest of objectToBraille in
translate.py: the centered heading of the sample TinyNotation part. -/
def sampleHeadingLine : String := "⠀⠀⠀⠀⠀⠀⠀⠼⠉⠲⠀⠀⠀⠀⠀⠀⠀"

/-- Second output line recorded in the doctest of objectToBraille in
translate.py: the transcribed body of the sample TinyNotation part. -/
def sampleBodyLine : String := "⠼⠁⠀⠸⠹⠵⠋⠛⠩⠓⠧⠀⠐⠏⠄⠣⠅"

/-- Modelled from the doctest of objectToBraille: the sample
TinyNotation part (three-four time, one measure with a quarter C4, four
sixteenths, a quarter rest and a dotted half) segments into one segment
for measure 1 whose transcription is the recorded two-line output. -/
def samplePart : Part :=
  { segments := fun _ =>
      [⟨1, 1, sampleHeadingLine ++ "\n" ++ sampleBodyLine, "Measure 1"⟩] }

/-- The sample TinyNotationStream wrapped as a Stream value. -/
def sampleStream : Stream :=
  { kind := .tinyNotationStream samplePart, partStaffs := [] }

/-! ## Concrete example values for witnesses and counterexamples -/

/-- Example segment covering measure 1. -/
def segA : Segment := ⟨1, 1, "⠼⠁", "segA"⟩

/-- Example segment covering measure 2. -/
def segB : Segment := ⟨2, 2, "⠼⠃", "segB"⟩

/-- Example segment covering measure 1, with a different transcription. -/
def segC : Segment := ⟨1, 1, "⠸⠣", "segC"⟩

/-- Example part whose segmentation yields one segment, for measure 1. -/
def partOneSeg : Part := { segments := fun _ => [segA] }

/-- Example part whose segmentation yields two segments, for measures 1
and 2. -/
def partTwoSegs : Part := { segments := fun _ => [segC, segB] }

/-- Example TinyNotationStream wrapped as a Stream, with no PartStaff
elements. -/
def tinyEx : Stream := { kind := .tinyNotationStream partOneSeg, partStaffs := [] }

/-- Example Stream of an unsupported kind with no PartStaff elements. -/
def genericEx : Stream := { kind := .generic, partStaffs := [] }

/-! ## Helper lemmas -/

theorem charListLe_cons {a b : Char} {as bs : List Char}
    (h : charListLe (a :: as) (b :: bs) = true) :
    a < b ∨ (a = b ∧ charListLe as bs = true) := by
  unfold charListLe at h
  by_cases hab : a < b
  · exact Or.inl hab
  · by_cases hba : b < a
    · simp [hab, hba] at h
    · exact Or.inr ⟨le_antisymm (not_lt.mp hba) (not_lt.mp hab),
        by simpa [hab, hba] using h⟩

theorem charListLe_total (as : List Char) :
    ∀ bs, charListLe as bs = true ∨ charListLe bs as = true := by
  induction as with
  | nil => intro bs; left; cases bs <;> rfl
  | cons a as ih =>
    intro bs
    cases bs with
    | nil => right; rfl
    | cons b bs =>
      by_cases hab : a < b
      · left; simp [charListLe, hab]
      · by_cases hba : b < a
        · right; simp [charListLe, hba]
        · have hEq : a = b := le_antisymm (not_lt.mp hba) (not_lt.mp hab)
          subst hEq
          rcases ih bs with h | h
          · left; simp [charListLe, lt_irrefl, h]
          · right; simp [charListLe, lt_irrefl, h]

theorem charListLe_trans (as : List Char) :
    ∀ bs cs, charListLe as bs = true → charListLe bs cs = true →
      charListLe as cs = true := by
  induction as with
  | nil => intro bs cs _ _; cases cs <;> rfl
  | cons a as ih =>
    intro bs cs h1 h2
    cases bs with
    | nil => simp [charListLe] at h1
    | cons b bs =>
      cases cs with
      | nil => simp [charListLe] at h2
      | cons c cs =>
        rcases charListLe_cons h1 with hab | ⟨rfl, htl1⟩
        · rcases charListLe_cons h2 with hbc | ⟨rfl, _⟩
          · simp [charListLe, lt_trans hab hbc]
          · simp [charListLe, hab]
        · rcases charListLe_cons h2 with hbc | ⟨rfl, htl2⟩
          · simp [charListLe, hbc]
          · simp [charListLe, lt_irrefl, ih bs cs htl1 htl2]

theorem strLe_total (a b : String) : strLe a b = true ∨ strLe b a = true :=
  charListLe_total a.data b.data

theorem strLe_trans {a b c : String} (h1 : strLe a b = true)
    (h2 : strLe b c = true) : strLe a c = true :=
  charListLe_trans a.data b.data c.data h1 h2

theorem insertLine_perm (x : String) :
    ∀ l : List String, (insertLine x l).Perm (x :: l) := by
  intro l
  induction l with
  | nil => exact List.Perm.refl _
  | cons y ys ih =>
    unfold insertLine
    by_cases h : strLe y x = true
    · rw [if_pos h]
      exact (ih.cons y).trans (List.Perm.swap x y ys)
    · rw [if_neg h]

theorem mem_insertLine {a x : String} {l : List String}
    (h : a ∈ insertLine x l) : a = x ∨ a ∈ l := by
  have := (insertLine_perm x l).mem_iff.mp h
  simpa using this

theorem insertLine_pairwise (x : String) :
    ∀ l : List String, l.Pairwise (fun a b => strLe a b = true) →
      (insertLine x l).Pairwise (fun a b => strLe a b = true) := by
  intro l
  induction l with
  | nil => intro _; simp [insertLine]
  | cons y ys ih =>
    intro hp
    rw [List.pairwise_cons] at hp
    unfold insertLine
    by_cases h : strLe y x = true
    · rw [if_pos h]
      rw [List.pairwise_cons]
      refine ⟨fun a ha => ?_, ih hp.2⟩
      rcases mem_insertLine ha with rfl | ha2
      · exact h
      · exact hp.1 a ha2
    · rw [if_neg h]
      have hxy : strLe x y = true := by
        rcases strLe_total x y with h2 | h2
        · exact h2
        · exact absurd h2 h
      rw [List.pairwise_cons]
      refine ⟨fun a ha => ?_, List.pairwise_cons.mpr ⟨hp.1, hp.2⟩⟩
      rcases ha with _ | ha2
      · exact hxy
      · exact strLe_trans hxy (hp.1 a (by assumption))

theorem foldl_insert_perm (l : List String) :
    ∀ acc, (l.foldl (fun acc x => insertLine x acc) acc).Perm (acc ++ l) := by
  induction l with
  | nil => intro acc; simp
  | cons x xs ih =>
    intro acc
    simp only [List.foldl_cons]
    refine (ih (insertLine x acc)).trans ?_
    refine (((insertLine_perm x acc).append_right xs).trans ?_)
    exact List.perm_middle.symm

theorem sortLines_perm (l : List String) : (sortLines l).Perm l := by
  simpa using foldl_insert_perm l []

theorem foldl_insert_pairwise (l : List String) :
    ∀ acc, acc.Pairwise (fun a b => strLe a b = true) →
      (l.foldl (fun acc x => insertLine x acc) acc).Pairwise
        (fun a b => strLe a b = true) := by
  induction l with
  | nil => intro acc h; simpa using h
  | cons x xs ih =>
    intro acc h
    simp only [List.foldl_cons]
    exact ih (insertLine x acc) (insertLine_pairwise x acc h)

theorem sortLines_pairwise (l : List String) :
    (sortLines l).Pairwise (fun a b => strLe a b = true) :=
  foldl_insert_pairwise l [] (List.Pairwise.nil)

theorem mem_metadataLines {md : Metadata} {line : String} :
    line ∈ metadataLines md ↔
      ∃ kv ∈ md.workIds, ∃ value, kv.2 = some value ∧
        line = fmtWorkId kv.1 value := by
  unfold metadataLines
  rw [List.mem_filterMap]
  constructor
  · rintro ⟨kv, hkv, hmap⟩
    rcases Option.map_eq_some'.mp hmap with ⟨value, hv, hline⟩
    exact ⟨kv, hkv, value, hv, hline.symm⟩
  · rintro ⟨kv, hkv, value, hv, hline⟩
    exact ⟨kv, hkv, by rw [hv, hline]; rfl⟩

theorem foldl_join_append (sep p q : String) (ts : List String) :
    ts.foldl (fun acc y => acc ++ sep ++ y) (p ++ q) =
      p ++ ts.foldl (fun acc y => acc ++ sep ++ y) q := by
  induction ts generalizing q with
  | nil => rfl
  | cons t ts ih =>
    simp only [List.foldl_cons]
    rw [show p ++ q ++ sep ++ t = p ++ (q ++ sep ++ t) by
      simp only [String.append_assoc]]
    exact ih (q ++ sep ++ t)

theorem pyJoin_cons_cons (sep x y : String) (ts : List String) :
    pyJoin sep (x :: y :: ts) = x ++ sep ++ pyJoin sep (y :: ts) := by
  unfold pyJoin
  simp only [List.foldl_cons]
  exact foldl_join_append sep (x ++ sep) y ts

theorem grandLoop_aligned (debug : Bool) (ps : List (Segment × Segment))
    (h : ∀ rl ∈ ps, rl.1.startMeasure = rl.2.startMeasure ∧
      rl.1.endMeasure = rl.2.endMeasure) :
    grandLoop debug ps = .ok (ps.map (fun rl =>
      if debug then BrailleGrandSegment.debugRepr ⟨rl.1, rl.2⟩
      else BrailleGrandSegment.transcription ⟨rl.1, rl.2⟩)) := by
  induction ps with
  | nil => rfl
  | cons rl rest ih =>
    have h1 := h rl (by simp)
    have h2 : ∀ x ∈ rest, x.1.startMeasure = x.2.startMeasure ∧
        x.1.endMeasure = x.2.endMeasure := fun x hx => h x (by simp [hx])
    simp only [grandLoop, BrailleGrandSegment.make, h1.1, h1.2, and_self,
      if_true, ih h2, List.map_cons]
    rfl

theorem stringLength_cons_mk (c : Char) (l : List Char) :
    (String.singleton c ++ String.mk l).length = 1 + l.length := by
  show ([c] ++ l).length = 1 + l.length
  simp [Nat.add_comm]

/-! ## Claim theorems -/

/-- C3: scoreToBraille joins with newlines one metadata summary block
per contained Metadata object followed by one partToBraille output per
contained Part; each block is the newline-join of its summary lines in
sorted order, the sorted lines being a permutation of the unsorted ones
arranged in lexicographic code-point order; and a string is a summary
line of a Metadata object exactly when some workIds key carries a
non-None value and the string is the title-cased words of that key
followed by a colon, a space and the value. -/
theorem scoreToBraille_metadata_summary (mkN : Part → Part) (s : Score)
    (kw : Keywords) :
    scoreToBraille mkN s kw = pyJoin "\n"
      (s.scoreMetadata.map metadataToString ++
        s.parts.map (fun p => partToBraille mkN p kw)) ∧
    (∀ md : Metadata,
      metadataToString md = pyJoin "\n" (sortLines (metadataLines md)) ∧
      (sortLines (metadataLines md)).Perm (metadataLines md) ∧
      (sortLines (metadataLines md)).Pairwise (fun a b => strLe a b = true) ∧
      ∀ line : String, line ∈ metadataLines md ↔
        ∃ kv ∈ md.workIds, ∃ value, kv.2 = some value ∧
          line = fmtWorkId kv.1 value) :=
  ⟨rfl, fun md => ⟨rfl, sortLines_perm (metadataLines md),
    sortLines_pairwise (metadataLines md), fun _ => mem_metadataLines⟩⟩

/-- C4: partToBraille is deterministic: the traced run returns the input
part unchanged to the caller, its output equals the partToBraille
output, and transcribing the part the caller holds after the first call
again with the same keywords yields the identical string. -/
theorem partToBraille_deterministic (mkN : Part → Part) (p : Part)
    (kw : Keywords) :
    (partToBrailleTraced mkN p kw).2.1 = p ∧
    (partToBrailleTraced mkN p kw).1 = partToBraille mkN p kw ∧
    partToBraille mkN ((partToBrailleTraced mkN p kw).2.1) kw =
      partToBraille mkN p kw := by
  refine ⟨rfl, ?_, rfl⟩
  cases hc : kw.inPlace with
  | none => simp [partToBrailleTraced, partToBraille, translateArgs, hc]
  | some b =>
      cases b <;> simp [partToBrailleTraced, partToBraille, translateArgs, hc]

/-- C5: when inPlace resolves to false, partToBraille calls makeNotation
exactly once and transcribes the renotated copy, the caller keeping the
unchanged input part; when inPlace resolves to true it makes no
makeNotation call and transcribes the input part as is. -/
theorem partToBraille_renotation_frame (mkN : Part → Part) (p : Part)
    (kw : Keywords) :
    (kw.inPlace.getD false = false →
      partToBrailleTraced mkN p kw =
        (pyJoin "\n" (((mkN p).segments kw).map
          (fun seg => if kw.debug.getD false then seg.debugRepr
            else seg.transcription)), p, 1)) ∧
    (kw.inPlace.getD false = true →
      partToBrailleTraced mkN p kw =
        (pyJoin "\n" ((p.segments kw).map
          (fun seg => if kw.debug.getD false then seg.debugRepr
            else seg.transcription)), p, 0)) := by
  constructor <;> intro h <;> simp [partToBrailleTraced, translateArgs, h]

/-- Witness for C5 at a concrete part and empty keywords: one renotation
call, the renotated segments transcribed, the input part returned. -/
theorem partToBraille_renotation_frame_witness :
    partToBrailleTraced (fun _ => partTwoSegs) partOneSeg {} =
      ("⠸⠣" ++ "\n" ++ "⠼⠃", partOneSeg, 1) := by
  have h := (partToBraille_renotation_frame (fun _ => partTwoSegs)
    partOneSeg {}).1 rfl
  rw [h]; rfl

/-- C8: opusToBraille joins the per-Score transcriptions in order with a
blank line: the empty Opus gives the empty string, a single Score gives
its scoreToBraille output alone, and with two or more Scores the output
is the first transcription, two consecutive newline characters, then
the join of the remaining Scores. -/
theorem opusToBraille_blank_line_join (mkN : Part → Part) (kw : Keywords) :
    opusToBraille mkN ⟨[]⟩ kw = "" ∧
    (∀ s : Score, opusToBraille mkN ⟨[s]⟩ kw = scoreToBraille mkN s kw) ∧
    (∀ (s1 s2 : Score) (rest : List Score),
      opusToBraille mkN ⟨s1 :: s2 :: rest⟩ kw =
        scoreToBraille mkN s1 kw ++ "\n\n" ++
          opusToBraille mkN ⟨s2 :: rest⟩ kw) := by
  refine ⟨rfl, fun s => rfl, fun s1 s2 rest => ?_⟩
  unfold opusToBraille
  simp only [List.map_cons]
  exact pyJoin_cons_cons "\n\n" _ _ _

/-- C9: measureToBraille resolves an absent showHeading and an absent
showFirstMeasureNumber to False, overriding their documented defaults of
True, preserves caller-supplied values of both keys, and transcribes the
wrapped measure through partToBraille with exactly these adjusted
keywords and inPlace forced on. -/
theorem measureToBraille_flag_defaults (mkNM : Measure → Measure)
    (m : Measure) (kw : Keywords) :
    (kw.showHeading = none → (measureKeywords kw).showHeading = some false) ∧
    (kw.showFirstMeasureNumber = none →
      (measureKeywords kw).showFirstMeasureNumber = some false) ∧
    (∀ b, kw.showHeading = some b →
      (measureKeywords kw).showHeading = some b) ∧
    (∀ b, kw.showFirstMeasureNumber = some b →
      (measureKeywords kw).showFirstMeasureNumber = some b) ∧
    defaultShowHeading = true ∧ defaultShowFirstMeasureNumber = true ∧
    measureToBraille mkNM m kw =
      partToBraille (fun q => q)
        ⟨(if kw.inPlace.getD false then m else mkNM m).segments⟩
        { measureKeywords kw with inPlace := some true } := by
  refine ⟨fun h => by simp [measureKeywords, h],
    fun h => by simp [measureKeywords, h],
    fun b h => by simp [measureKeywords, h],
    fun b h => by simp [measureKeywords, h], rfl, rfl, rfl⟩

/-- Witness for C9 at empty keywords: both flags resolve to False. -/
theorem measureToBraille_flag_defaults_witness :
    (measureKeywords {}).showHeading = some false ∧
    (measureKeywords {}).showFirstMeasureNumber = some false :=
  ⟨(measureToBraille_flag_defaults (fun q => q) ⟨fun _ => []⟩ {}).1 rfl,
   (measureToBraille_flag_defaults (fun q => q) ⟨fun _ => []⟩ {}).2.1 rfl⟩

/-- C10: a Stream containing exactly two PartStaff elements is routed to
keyboard bar-over-bar transcription even when it is a Score: the Score
branch is never consulted, so the output coincides with
keyboardPartsToBraille on the two staves and does not change when the
metadata of the score is replaced, meaning no metadata summary line is
ever emitted. -/
theorem streamToBraille_keyboard_beats_score (mkN : Part → Part)
    (mkNM : Measure → Measure) (s : Score) (u l : Part) (kw : Keywords)
    (md2 : List Metadata) :
    streamToBraille mkN mkNM ⟨.score s, [u, l]⟩ kw =
      keyboardPartsToBraille mkN u l kw ∧
    streamToBraille mkN mkNM ⟨.score s, [u, l]⟩ kw =
      streamToBraille mkN mkNM ⟨.score ⟨md2, s.parts⟩, [u, l]⟩ kw :=
  ⟨rfl, rfl⟩

/-- C1 counterexample: staves whose segment sequences have the unequal
lengths 1 and 2 under the given keywords; keyboardPartsToBraille does
not fail but returns the transcription of the single zipped pair,
silently dropping the surplus second segment of the lower staff. -/
theorem keyboardPartsToBraille_unequal_no_error :
    (partOneSeg.segments {}).length = 1 ∧
    (partTwoSegs.segments {}).length = 2 ∧
    keyboardPartsToBraille (fun q => q) partOneSeg partTwoSegs {} =
      .ok ("⠼⠁" ++ "\n" ++ "⠸⠣") :=
  ⟨rfl, rfl, rfl⟩

/-- C1 amended: keyboardPartsToBraille pairs the two segment sequences
positionally with zip up to the shorter one, so unequal lengths do not
raise AlignmentError: surplus segments of the longer sequence are
silently dropped; when every zipped pair covers the same measure range
the call succeeds with one grand segment text per pair, the upper staff
transcription preceding the lower staff transcription, the pieces
joined with newlines; the number of pairs is the minimum of the two
sequence lengths. -/
theorem keyboardPartsToBraille_zip_pairs (mkN : Part → Part)
    (u l : Part) (kw : Keywords)
    (hdbg : kw.debug.getD false = false)
    (halign : ∀ rl ∈ keyboardZip mkN u l kw,
      rl.1.startMeasure = rl.2.startMeasure ∧
        rl.1.endMeasure = rl.2.endMeasure) :
    keyboardPartsToBraille mkN u l kw = .ok (pyJoin "\n"
      ((keyboardZip mkN u l kw).map (fun rl =>
        rl.1.transcription ++ "\n" ++ rl.2.transcription))) ∧
    (keyboardZip mkN u l kw).length =
      min ((if kw.inPlace.getD false then u else mkN u).segments kw).length
        ((if kw.inPlace.getD false then l else mkN l).segments kw).length := by
  have hz := grandLoop_aligned (kw.debug.getD false) (keyboardZip mkN u l kw)
    halign
  constructor
  · show Except.bind (grandLoop (kw.inPlace.getD false, kw.debug.getD false).2
        (keyboardZip mkN u l kw))
      (fun ts => Except.ok (pyJoin "\n" ts)) = _
    rw [show ((kw.inPlace.getD false, kw.debug.getD false).2 : Bool) =
      kw.debug.getD false from rfl, hz, hdbg]
    rfl
  · simp [keyboardZip]

/-- Witness for C1 at concrete aligned staves of one segment each. -/
theorem keyboardPartsToBraille_zip_pairs_witness :
    keyboardPartsToBraille (fun q => q) partOneSeg partOneSeg {} =
      .ok ("⠼⠁" ++ "\n" ++ "⠼⠁") := by
  have h := (keyboardPartsToBraille_zip_pairs (fun q => q) partOneSeg
    partOneSeg {} rfl (by decide)).1
  rw [h]; rfl

/-- C2 counterexample: a TinyNotationStream is neither a Part, nor a
Measure, nor a Score, nor an Opus, and carries no pair of PartStaff
elements, yet streamToBraille transcribes it through the dedicated
TinyNotationStream branch of the source instead of raising a typed
error. -/
theorem streamToBraille_tiny_no_error :
    (∀ p, tinyEx.kind ≠ .part p) ∧
    (∀ m, tinyEx.kind ≠ .measure m) ∧
    (∀ s, tinyEx.kind ≠ .score s) ∧
    (∀ o, tinyEx.kind ≠ .opus o) ∧
    tinyEx.partStaffs.length ≠ 2 ∧
    streamToBraille (fun q => q) (fun m => m) tinyEx {} = .ok "⠼⠁" := by
  refine ⟨fun p h => ?_, fun m h => ?_, fun s h => ?_, fun o h => ?_,
    by decide, rfl⟩ <;> simp [tinyEx] at h

/-- C2 amended: for every Stream that is none of a Part, a
TinyNotationStream, a Measure, a Stream containing exactly two
PartStaff elements, a Score or an Opus, streamToBraille raises
BrailleTranslateException and returns no output at all. -/
theorem streamToBraille_unsupported (mkN : Part → Part)
    (mkNM : Measure → Measure) (st : Stream) (kw : Keywords)
    (hk : st.kind = .generic) (hs : st.partStaffs.length ≠ 2) :
    streamToBraille mkN mkNM st kw = .error .brailleTranslateExc := by
  rcases st with ⟨kind, staffs⟩
  obtain rfl : kind = StreamKind.generic := hk
  match staffs, hs with
  | [], _ => rfl
  | [a], _ => rfl
  | [a, b], h => exact absurd rfl h
  | a :: b :: c :: t, _ => rfl

/-- Witness for C2 at a concrete generic stream without keyboard
parts. -/
theorem streamToBraille_unsupported_witness :
    streamToBraille (fun q => q) (fun m => m) genericEx {} =
      .error .brailleTranslateExc :=
  streamToBraille_unsupported (fun q => q) (fun m => m) genericEx {} rfl
    (by decide)

/-- C6: objectToBraille on a lone Dynamic with default configuration
yields exactly the dynamics introducer followed by one letter glyph per
character of the textual name and nothing else; the output is one cell
longer than the name, and for the fff dynamic it is the introducer
followed by three forte glyphs. -/
theorem objectToBraille_dynamic (mkN : Part → Part)
    (mkNM : Measure → Measure) (dynName : String) :
    objectToBraille mkN mkNM (.dynamic dynName) {} =
      .ok (dynamicToBraille dynName) ∧
    dynamicToBraille dynName =
      String.singleton dynamicIntroducer ++
        String.mk (dynName.data.map brailleLetter) ∧
    (dynamicToBraille dynName).length = 1 + dynName.length ∧
    objectToBraille mkN mkNM (.dynamic "fff") {} = .ok ("⠜" ++ "⠋⠋⠋") := by
  refine ⟨rfl, rfl, ?_, rfl⟩
  show (String.singleton dynamicIntroducer ++
    String.mk (dynName.data.map brailleLetter)).length = 1 + dynName.data.length
  rw [stringLength_cons_mk, List.length_map]

/-- C7: the sample one-measure part in three-four time from the doctest
of objectToBraille transcribes under default keywords, with a renotation
collaborator fixing the already well-formed sample part, to exactly two
lines: the heading line containing the time signature glyphs for
three-four, and the body line starting with the measure-number glyph
sequence for 1 and ending with the final barline glyphs. -/
theorem objectToBraille_sample_part (mkN : Part → Part)
    (mkNM : Measure → Measure) (h : mkN samplePart = samplePart) :
    objectToBraille mkN mkNM (.streamObj sampleStream) {} =
      .ok (sampleHeadingLine ++ "\n" ++ sampleBodyLine) ∧
    splitLines (sampleHeadingLine ++ "\n" ++ sampleBodyLine) =
      [sampleHeadingLine, sampleBodyLine] ∧
    containsPiece sampleHeadingLine timeSigThreeFour ∧
    strStarts sampleBodyLine measureNumberOne = true ∧
    strEnds sampleBodyLine finalBarlineGlyphs = true := by
  refine ⟨?_, by decide, ?_, by decide, by decide⟩
  · have h1 : partToBraille mkN samplePart {} = pyJoin "\n"
        (((mkN samplePart).segments {}).map (fun seg => seg.transcription)) :=
      rfl
    have h2 : objectToBraille mkN mkNM (.streamObj sampleStream) {} =
        .ok (partToBraille mkN samplePart {}) := rfl
    rw [h2, h1, h]; rfl
  · exact ⟨"⠀⠀⠀⠀⠀⠀⠀", "⠀⠀⠀⠀⠀⠀⠀", by decide⟩

/-- Witness for C7 with the identity renotation collaborator. -/
theorem objectToBraille_sample_part_witness :
    objectToBraille (fun _ => samplePart) (fun m => m)
      (.streamObj sampleStream) {} =
      .ok (sampleHeadingLine ++ "\n" ++ sampleBodyLine) :=
  (objectToBraille_sample_part (fun _ => samplePart) (fun m => m) rfl).1

end BrailleTranslate
